import Mathlib

/-!
Verification development for the snerge-bot repository.

The development shallowly embeds the two source modules,
`src/snerge/bot.py` and `src/snerge/guess_handler.py`, as pure Lean
functions and proves the specified properties about them.

Conventions used throughout:
* Python strings are Lean `String`s; where character-level processing is
  needed (lowercasing, prefix tests, substring replacement) we work on
  `String.data : List Char`, with `Char.toLower` modelling Python's
  `str.lower` on the ASCII inputs relevant here.
* The statistical quote source (`ProseGen.make_statement`) is modelled as
  an oracle `stmt : Nat → String` giving the text produced by the n-th
  call; `random.randint` is modelled as an oracle `rnd : Int → Int → Int`
  assumed to return a value inside the requested closed range.
* Awaited sends, task creation and session teardown are recorded as
  explicit action traces; an exception raised by a send is modelled by a
  boolean outcome that aborts the remainder of the action sequence,
  mirroring Python exception propagation.
-/

namespace Snerge

/-- Configuration ranges from `snerge.config.Config` as used by `bot.py`:
closed integer ranges for the three scheduling delays plus the accepted
quote length band. Delay ranges are `Int` pairs (they bound `random.randint`
draws compared against clock differences); `quote_length` bounds
`len(wisdom)` and is a `Nat` pair. -/
structure Config where
  startup_probe : Int × Int
  chat_active_probe : Int × Int
  auto_quote_time : Int × Int
  quote_length : Nat × Nat

/-! ## QuoteGenerator: `get_quote` (bot.py lines 140-148)

```python
def get_quote(quotes: ProseGen, min_length: int, max_length: int) -> str:
    # Max 100 attempts to generate a quote
    for _ in range(100):
        wisdom = quotes.make_statement(min_length)
        if min_length < len(wisdom) < max_length:
            return wisdom
    return "I don't like coffee."
```

`stmt n` is the text returned by the (n+1)-st call to
`quotes.make_statement(min_length)`. `get_quote_go i fuel` runs the
remaining `fuel` iterations of the `range(100)` loop after `i` calls have
already been made, and returns the produced quote together with the total
number of calls made to the source. -/

def fallback_quote : String := "I don't like coffee."

def get_quote_go (stmt : Nat → String) (mn mx : Nat) : Nat → Nat → String × Nat
  | i, 0 => (fallback_quote, i)
  | i, fuel + 1 =>
    let wisdom := stmt i
    if mn < wisdom.length ∧ wisdom.length < mx then (wisdom, i + 1)
    else get_quote_go stmt mn mx (i + 1) fuel

def get_quote (stmt : Nat → String) (mn mx : Nat) : String × Nat :=
  get_quote_go stmt mn mx 0 100

/-- The acceptance test `min_length < len(wisdom) < max_length`. -/
def accepts (mn mx : Nat) (s : String) : Prop :=
  mn < s.length ∧ s.length < mx

instance (mn mx : Nat) (s : String) : Decidable (accepts mn mx s) := by
  unfold accepts; infer_instance

theorem get_quote_go_all_fail (stmt : Nat → String) (mn mx : Nat) :
    ∀ fuel i, (∀ j, j < fuel → ¬ accepts mn mx (stmt (i + j))) →
      get_quote_go stmt mn mx i fuel = (fallback_quote, i + fuel) := by
  intro fuel
  induction fuel with
  | zero => intro i _; simp [get_quote_go]
  | succ n ih =>
    intro i h
    have h0 : ¬ accepts mn mx (stmt i) := by
      have := h 0 (Nat.succ_pos n)
      simpa using this
    have hrest : ∀ j, j < n → ¬ accepts mn mx (stmt (i + 1 + j)) := by
      intro j hj
      have := h (j + 1) (by omega)
      have heq : i + (j + 1) = i + 1 + j := by omega
      rwa [heq] at this
    simp only [get_quote_go]
    rw [if_neg (by simpa [accepts] using h0)]
    rw [ih (i + 1) hrest]
    congr 1
    omega

theorem get_quote_go_first_hit (stmt : Nat → String) (mn mx : Nat) :
    ∀ fuel i k, k < fuel → accepts mn mx (stmt (i + k)) →
      (∀ j, j < k → ¬ accepts mn mx (stmt (i + j))) →
      get_quote_go stmt mn mx i fuel = (stmt (i + k), i + k + 1) := by
  intro fuel
  induction fuel with
  | zero => intro i k hk; omega
  | succ n ih =>
    intro i k hk hacc hbefore
    cases k with
    | zero =>
      simp only [get_quote_go]
      rw [if_pos (by simpa [accepts] using hacc)]
      simp
    | succ m =>
      have h0 : ¬ accepts mn mx (stmt i) := by
        have := hbefore 0 (Nat.succ_pos m)
        simpa using this
      have hacc1 : accepts mn mx (stmt (i + 1 + m)) := by
        have heq : i + (m + 1) = i + 1 + m := by omega
        rwa [heq] at hacc
      have hbefore1 : ∀ j, j < m → ¬ accepts mn mx (stmt (i + 1 + j)) := by
        intro j hj
        have := hbefore (j + 1) (by omega)
        have heq : i + (j + 1) = i + 1 + j := by omega
        rwa [heq] at this
      simp only [get_quote_go]
      rw [if_neg (by simpa [accepts] using h0)]
      rw [ih (i + 1) m (by omega) hacc1 hbefore1]
      have heq : i + 1 + m = i + (m + 1) := by omega
      rw [heq]

/-- C1: `get_quote(quotes, minLength, maxLength)` is total (the Lean
embedding is a total function, so it never raises and always returns). It
returns the first statement whose length is strictly between `minLength`
and `maxLength`, having called the source once per attempt up to and
including the accepted one; if none of the 100 attempts qualifies, the
source has been called exactly 100 times and the result is the fixed
fallback quote `"I don't like coffee."`. -/
theorem get_quote_spec (stmt : Nat → String) (mn mx : Nat) (hlt : mn < mx) :
    ((∀ i, i < 100 → ¬ accepts mn mx (stmt i)) →
      get_quote stmt mn mx = (fallback_quote, 100)) ∧
    (∀ i, i < 100 → accepts mn mx (stmt i) →
      (∀ j, j < i → ¬ accepts mn mx (stmt j)) →
      get_quote stmt mn mx = (stmt i, i + 1)) := by
  constructor
  · intro h
    have := get_quote_go_all_fail stmt mn mx 100 0 (by simpa using h)
    simpa [get_quote] using this
  · intro i hi hacc hbefore
    have := get_quote_go_first_hit stmt mn mx 100 0 i hi (by simpa using hacc)
      (by simpa using hbefore)
    simpa [get_quote] using this

/-- Concrete instantiations of `get_quote_spec`: a source that always
returns a one-character statement with band (0, 2) is accepted on the
first call, and a source that always returns the empty string with the
same band exhausts all 100 attempts and yields the fallback. -/
theorem get_quote_spec_witness :
    (0 : Nat) < 2 ∧ get_quote (fun _ => "a") 0 2 = ("a", 1) ∧
      get_quote (fun _ => "") 0 2 = (fallback_quote, 100) := by
  refine ⟨by decide, ?_, ?_⟩
  · exact (get_quote_spec (fun _ => "a") 0 2 (by decide)).2 0 (by decide)
      (by decide) (fun j hj => absurd hj (Nat.not_lt_zero j))
  · exact (get_quote_spec (fun _ => "") 0 2 (by decide)).1
      (fun i _ => by simp [accepts])

/-! ## Scheduler: `Bot.queue_quote` (bot.py lines 90-112)

```python
async def queue_quote(self) -> None:
    if self._stop:
        return
    if not self.target:
        next_call = random.randint(*self.config.startup_probe)
    elif self.loop.time() - self.last_message > self.config.chat_active_probe[0]:
        next_call = random.randint(*self.config.chat_active_probe)
    else:
        self.loop.create_task(self.send_quote())
        next_call = random.randint(*self.config.auto_quote_time)
    self._timer = self.loop.call_later(
        next_call, lambda: self.loop.create_task(self.queue_quote())
    )
```

The tick is a pure function of the fields it reads (`_stop`,
`target`-presence, `loop.time()`, `last_message`) and the `randint`
oracle; it reports how many posts (`send_quote` tasks) it created, how
many future ticks it armed (`call_later`), and the delay it chose. -/

structure SchedCtx where
  stopped : Bool
  connected : Bool
  now : Int
  last_message : Int

structure TickResult where
  posts : Nat
  armed : Nat
  delay : Option Int
deriving DecidableEq

def queue_quote (cfg : Config) (rnd : Int → Int → Int) (s : SchedCtx) : TickResult :=
  if s.stopped then ⟨0, 0, none⟩
  else if ¬ s.connected then
    ⟨0, 1, some (rnd cfg.startup_probe.1 cfg.startup_probe.2)⟩
  else if s.now - s.last_message > cfg.chat_active_probe.1 then
    ⟨0, 1, some (rnd cfg.chat_active_probe.1 cfg.chat_active_probe.2)⟩
  else
    ⟨1, 1, some (rnd cfg.auto_quote_time.1 cfg.auto_quote_time.2)⟩

/-- Membership in a closed `[min, max]` range, as produced by
`random.randint(min, max)`. -/
def inRange (r : Int × Int) (d : Int) : Prop := r.1 ≤ d ∧ d ≤ r.2

instance (r : Int × Int) (d : Int) : Decidable (inRange r d) := by
  unfold inRange; infer_instance

/-- The `randint` oracle returns a value inside the requested closed
range whenever the range is non-empty. -/
def RandintOk (rnd : Int → Int → Int) : Prop :=
  ∀ a b : Int, a ≤ b → a ≤ rnd a b ∧ rnd a b ≤ b

/-- The configured ranges are well-formed (`min ≤ max`), as the data
model requires. -/
def RangesOk (cfg : Config) : Prop :=
  cfg.startup_probe.1 ≤ cfg.startup_probe.2 ∧
  cfg.chat_active_probe.1 ≤ cfg.chat_active_probe.2 ∧
  cfg.auto_quote_time.1 ≤ cfg.auto_quote_time.2

/-- C2: on a tick that runs while not stopped, the three-way
classification holds — disconnected ticks choose a delay in
`startup_probe` and post nothing; connected ticks with
`now - last_message > chat_active_probe[0]` choose a delay in
`chat_active_probe` and post nothing; all other ticks trigger exactly one
post and choose a delay in `auto_quote_time` — and in every case exactly
one future tick is armed. -/
theorem queue_quote_classification (cfg : Config) (rnd : Int → Int → Int)
    (hrnd : RandintOk rnd) (hcfg : RangesOk cfg)
    (s : SchedCtx) (hs : s.stopped = false) :
    (queue_quote cfg rnd s).armed = 1 ∧
    (s.connected = false →
      (queue_quote cfg rnd s).posts = 0 ∧
      ∃ d, (queue_quote cfg rnd s).delay = some d ∧ inRange cfg.startup_probe d) ∧
    (s.connected = true → s.now - s.last_message > cfg.chat_active_probe.1 →
      (queue_quote cfg rnd s).posts = 0 ∧
      ∃ d, (queue_quote cfg rnd s).delay = some d ∧ inRange cfg.chat_active_probe d) ∧
    (s.connected = true → ¬ (s.now - s.last_message > cfg.chat_active_probe.1) →
      (queue_quote cfg rnd s).posts = 1 ∧
      ∃ d, (queue_quote cfg rnd s).delay = some d ∧ inRange cfg.auto_quote_time d) := by
  obtain ⟨h1, h2, h3⟩ := hcfg
  refine ⟨?_, ?_, ?_, ?_⟩
  · unfold queue_quote
    rw [hs]
    simp only [Bool.false_eq_true, if_false]
    split
    · rfl
    · split <;> rfl
  · intro hc
    have hqq : queue_quote cfg rnd s =
        ⟨0, 1, some (rnd cfg.startup_probe.1 cfg.startup_probe.2)⟩ := by
      unfold queue_quote
      rw [hs, hc]
      simp
    rw [hqq]
    exact ⟨rfl, rnd _ _, rfl, hrnd _ _ h1⟩
  · intro hc hq
    have hqq : queue_quote cfg rnd s =
        ⟨0, 1, some (rnd cfg.chat_active_probe.1 cfg.chat_active_probe.2)⟩ := by
      unfold queue_quote
      rw [hs, hc]
      simp [hq]
    rw [hqq]
    exact ⟨rfl, rnd _ _, rfl, hrnd _ _ h2⟩
  · intro hc hq
    have hqq : queue_quote cfg rnd s =
        ⟨1, 1, some (rnd cfg.auto_quote_time.1 cfg.auto_quote_time.2)⟩ := by
      unfold queue_quote
      rw [hs, hc]
      simp [if_neg hq]
    rw [hqq]
    exact ⟨rfl, rnd _ _, rfl, hrnd _ _ h3⟩

/-- Concrete instantiation of `queue_quote_classification`: with ranges
startup [1,2], chat-active [3,4], auto-quote [5,6], the always-minimum
randint oracle, and a connected, quiet-for-10-seconds state, the
chat-active branch fires: no post, delay 3, one timer armed. -/
theorem queue_quote_classification_witness :
    (queue_quote ⟨(1, 2), (3, 4), (5, 6), (7, 8)⟩ (fun a _ => a)
        ⟨false, true, 10, 0⟩).armed = 1 ∧
    (queue_quote ⟨(1, 2), (3, 4), (5, 6), (7, 8)⟩ (fun a _ => a)
        ⟨false, true, 10, 0⟩).posts = 0 ∧
    ∃ d, (queue_quote ⟨(1, 2), (3, 4), (5, 6), (7, 8)⟩ (fun a _ => a)
        ⟨false, true, 10, 0⟩).delay = some d ∧ inRange (3, 4) d := by
  have h := queue_quote_classification ⟨(1, 2), (3, 4), (5, 6), (7, 8)⟩
    (fun a _ => a) (fun a b hab => ⟨le_refl a, hab⟩)
    ⟨by decide, by decide, by decide⟩ ⟨false, true, 10, 0⟩ rfl
  obtain ⟨harm, _, hchat, _⟩ := h
  obtain ⟨hp, d, hd, hr⟩ := hchat rfl (by decide)
  exact ⟨harm, hp, d, hd, hr⟩

/-! ## ShutdownController: `Bot.stop` (bot.py lines 128-137)

```python
async def stop(self) -> None:
    self._stop = True
    if self._timer:
        self._timer.cancel()
    if self.target:
        await self.target.send("sergeSnerge Sleepy time!")
    await self.close()
```

Note what the body does and does not do: `self._timer.cancel()` does not
clear `self._timer`, `self.target` is never cleared, and there is no
`try`/`finally` around the farewell send — an exception raised by
`self.target.send` propagates out of `stop` before `await self.close()`
is reached. The embedding records the actions performed in order and
whether an exception escaped (`sendOk = false` models a raising send). -/

inductive StopAct
  | cancelTimer
  | sendFarewell
  | closeSession
deriving DecidableEq

structure StopState where
  stop_flag : Bool
  timer : Option Nat
  target : Option Unit
deriving DecidableEq

def stop (sendOk : Bool) (s : StopState) : StopState × List StopAct × Bool :=
  let s1 : StopState := { s with stop_flag := true }
  let cancels := if s1.timer.isSome then [StopAct.cancelTimer] else []
  match s1.target with
  | some _ =>
    if sendOk then
      (s1, cancels ++ [StopAct.sendFarewell, StopAct.closeSession], false)
    else
      (s1, cancels ++ [StopAct.sendFarewell], true)
  | none => (s1, cancels ++ [StopAct.closeSession], false)

/-- C3 counterexample: starting from a state with an armed timer and a
connected session, if the farewell send raises then `close()` is never
executed — the session close is not unconditional. -/
theorem stop_close_counterexample :
    StopAct.closeSession ∉ (stop false ⟨false, some 0, some ()⟩).2.1 ∧
    (stop false ⟨false, some 0, some ()⟩).2.2 = true := by
  decide

/-- C3 amended: `close()` is executed exactly when the farewell send does
not raise or no session is connected; when a connected session's farewell
send raises, the exception escapes `stop()` and the close is skipped. -/
theorem stop_close_amended (sendOk : Bool) (s : StopState) :
    (StopAct.closeSession ∈ (stop sendOk s).2.1 ↔
      (sendOk = true ∨ s.target = none)) ∧
    ((stop sendOk s).2.2 = true ↔ (sendOk = false ∧ s.target ≠ none)) := by
  unfold stop
  rcases s with ⟨f, t, tg⟩
  rcases tg with _ | ⟨⟩ <;> rcases sendOk <;> rcases t with _ | n <;> simp

/-- Count of farewell sends in an action trace. -/
def farewells (l : List StopAct) : Nat := l.count StopAct.sendFarewell

/-- C4 counterexample: two successive `stop()` calls from a connected
state each send the farewell (`self.target` is never cleared), so two
farewell sends occur across the two calls, not exactly one. -/
theorem stop_idempotent_counterexample :
    farewells (stop true ⟨false, none, some ()⟩).2.1 +
      farewells (stop true (stop true ⟨false, none, some ()⟩).1).2.1 = 2 ∧
    ¬ (farewells (stop true ⟨false, none, some ()⟩).2.1 +
        farewells (stop true (stop true ⟨false, none, some ()⟩).1).2.1 = 1) := by
  decide

/-- C4 amended: the second `stop()` call leaves the state exactly as the
first left it (flag setting and timer cancellation are idempotent), but
the farewell send is repeated: each call sends one farewell precisely
when a session is connected, so two calls from a connected state perform
exactly two farewell sends, and zero when disconnected. -/
theorem stop_twice_amended (s : StopState) :
    (stop true (stop true s).1).1 = (stop true s).1 ∧
    farewells (stop true s).2.1 = (if s.target.isSome then 1 else 0) ∧
    farewells (stop true (stop true s).1).2.1 =
      (if s.target.isSome then 1 else 0) ∧
    farewells (stop true s).2.1 +
      farewells (stop true (stop true s).1).2.1 =
      (if s.target.isSome then 2 else 0) := by
  unfold stop farewells
  rcases s with ⟨f, t, tg⟩
  rcases tg with _ | ⟨⟩ <;> rcases t with _ | n <;> simp

/-! ## Shutdown finality: the scheduler/stop transition system (C5)

The system-level behaviour of the self-rescheduling loop: `sysInit` is the
state right after `event_ready` created the first `queue_quote` task
(one pending invocation); a `tick` event is that pending invocation
running (it consumes the pending slot, then behaves as `queue_quote`,
re-arming `r.armed` timers and creating `r.posts` posts); a `stop` event
is `Bot.stop` (sets `_stop`, cancels the pending timer). -/

structure SysState where
  stopped : Bool
  timers : Nat
  posts : Nat
deriving DecidableEq

def fireTick (cfg : Config) (rnd : Int → Int → Int) (conn : Bool)
    (now last : Int) (s : SysState) : SysState :=
  if s.timers = 0 then s
  else
    let r := queue_quote cfg rnd ⟨s.stopped, conn, now, last⟩
    ⟨s.stopped, s.timers - 1 + r.armed, s.posts + r.posts⟩

def doStop (s : SysState) : SysState := ⟨true, 0, s.posts⟩

inductive SysEv
  | tick (conn : Bool) (now last : Int)
  | stopEv

def sysStep (cfg : Config) (rnd : Int → Int → Int) (s : SysState) :
    SysEv → SysState
  | .tick conn now last => fireTick cfg rnd conn now last s
  | .stopEv => doStop s

def sysInit : SysState := ⟨false, 1, 0⟩

inductive Reachable (cfg : Config) (rnd : Int → Int → Int) : SysState → Prop
  | init : Reachable cfg rnd sysInit
  | step (s : SysState) (e : SysEv) :
      Reachable cfg rnd s → Reachable cfg rnd (sysStep cfg rnd s e)

theorem queue_quote_armed_le_one (cfg : Config) (rnd : Int → Int → Int)
    (c : SchedCtx) : (queue_quote cfg rnd c).armed ≤ 1 := by
  unfold queue_quote
  split
  · exact Nat.zero_le 1
  · split
    · exact le_refl 1
    · split <;> exact le_refl 1

theorem reachable_invariant (cfg : Config) (rnd : Int → Int → Int)
    (s : SysState) (hs : Reachable cfg rnd s) :
    s.timers ≤ 1 ∧ (s.stopped = true → s.timers = 0) := by
  induction hs with
  | init => exact ⟨le_refl 1, by simp [sysInit]⟩
  | step s e _ ih =>
    obtain ⟨hle, hstop⟩ := ih
    cases e with
    | stopEv => exact ⟨Nat.zero_le 1, fun _ => rfl⟩
    | tick conn now last =>
      simp only [sysStep, fireTick]
      split
      · exact ⟨hle, hstop⟩
      · rename_i hne
        constructor
        · have harm := queue_quote_armed_le_one cfg rnd ⟨s.stopped, conn, now, last⟩
          dsimp only
          omega
        · intro hstopped
          exact absurd (hstop hstopped) hne

/-- C5: in every reachable state of the scheduler/stop system at most one
pending timer is outstanding, and once `stopped` holds the pending count
is zero, a firing tick is a no-op (no post created, no timer armed, state
unchanged — `queue_quote` returns at its `if self._stop` guard), and any
further event preserves `stopped` and keeps the pending count at zero. -/
theorem stop_finality (cfg : Config) (rnd : Int → Int → Int)
    (s : SysState) (hs : Reachable cfg rnd s)
    (conn : Bool) (now last : Int) (e : SysEv) :
    s.timers ≤ 1 ∧
    (s.stopped = true →
      s.timers = 0 ∧
      fireTick cfg rnd conn now last s = s ∧
      (sysStep cfg rnd s e).stopped = true ∧
      (sysStep cfg rnd s e).timers = 0) := by
  obtain ⟨hle, hstop⟩ := reachable_invariant cfg rnd s hs
  refine ⟨hle, fun hstopped => ?_⟩
  have ht0 : s.timers = 0 := hstop hstopped
  have hfire : ∀ c n l, fireTick cfg rnd c n l s = s := by
    intro c n l
    unfold fireTick
    rw [if_pos ht0]
  refine ⟨ht0, hfire conn now last, ?_, ?_⟩
  · cases e with
    | tick c n l => rw [sysStep, hfire c n l]; exact hstopped
    | stopEv => rfl
  · cases e with
    | tick c n l => rw [sysStep, hfire c n l]; exact ht0
    | stopEv => rfl

/-- Concrete instantiation of `stop_finality` at the reachable state
obtained by stopping right after startup: the pending count is zero, a
tick event leaves the state untouched, and further events arm nothing. -/
theorem stop_finality_witness :
    (doStop sysInit).timers ≤ 1 ∧
    ((doStop sysInit).stopped = true →
      (doStop sysInit).timers = 0 ∧
      fireTick ⟨(1, 2), (3, 4), (5, 6), (7, 8)⟩ (fun a _ => a) true 10 0
        (doStop sysInit) = doStop sysInit ∧
      (sysStep ⟨(1, 2), (3, 4), (5, 6), (7, 8)⟩ (fun a _ => a) (doStop sysInit)
        (SysEv.tick true 10 0)).stopped = true ∧
      (sysStep ⟨(1, 2), (3, 4), (5, 6), (7, 8)⟩ (fun a _ => a) (doStop sysInit)
        (SysEv.tick true 10 0)).timers = 0) :=
  stop_finality ⟨(1, 2), (3, 4), (5, 6), (7, 8)⟩ (fun a _ => a)
    (doStop sysInit) (Reachable.step sysInit SysEv.stopEv Reachable.init)
    true 10 0 (SysEv.tick true 10 0)

/-! ## CosmeticTransform: `owo_magic` (bot.py lines 151-166) and
`Bot.send_quote` (bot.py lines 114-126)

```python
def owo_magic(non_owo_string: str) -> str:
    return (
        non_owo_string.replace("ove", "wuw")
        .replace("R", "W")
        .replace("r", "w")
        .replace("L", "W")
        .replace("l", "w")
    )
```

`replGo` embeds Python `str.replace` for a non-empty pattern: scan left
to right, replacing each non-overlapping occurrence. The fuel argument
(initially the string length) only serves totality; one character is
consumed per step, so it never runs out. -/

def replGo (pat rep : List Char) : Nat → List Char → List Char
  | _, [] => []
  | 0, l => l
  | fuel + 1, c :: rest =>
    if pat.isPrefixOf (c :: rest) then
      rep ++ replGo pat rep fuel (List.drop (pat.length - 1) rest)
    else
      c :: replGo pat rep fuel rest

def pyReplace (s pat rep : String) : String :=
  String.mk (replGo pat.data rep.data s.data.length s.data)

def owo_magic (non_owo_string : String) : String :=
  pyReplace (pyReplace (pyReplace (pyReplace
    (pyReplace non_owo_string "ove" "wuw") "R" "W") "r" "w") "L" "W") "l" "w"

/-! ```python
async def send_quote(self) -> None:
    if not self.target:
        return
    quote = get_quote(self.quotes, *self.config.quote_length)
    ...
    if random.randint(0, 200) == 0:
        await self.target.send("[UwU] " + owo_magic(quote) + " [UwU]")
    else:
        await self.target.send("sergeSnerge " + quote + " sergeSnerge")
```

`d` is the `random.randint(0, 200)` draw; the trace records the quote
generation and the send. -/

inductive BotAct
  | genQuote
  | send (msg : String)
deriving DecidableEq

def send_quote (target : Option Unit) (stmt : Nat → String) (cfg : Config)
    (d : Nat) : List BotAct :=
  match target with
  | none => []
  | some _ =>
    let quote := (get_quote stmt cfg.quote_length.1 cfg.quote_length.2).1
    if d = 0 then
      [BotAct.genQuote, BotAct.send ("[UwU] " ++ owo_magic quote ++ " [UwU]")]
    else
      [BotAct.genQuote, BotAct.send ("sergeSnerge " ++ quote ++ " sergeSnerge")]

/-- C6: the festive path (draw 0 of the 201 equiprobable draws 0..200,
hence probability 1/201) sends the quote transformed by exactly the
substitution chain "ove"→"wuw", then "R"→"W", "r"→"w", "L"→"W", "l"→"w",
in that order, wrapped in "[UwU]" markers on both sides; stepwise on
"Love": "ove"→"wuw" gives "Lwuw", "R"/"r" substitutions are no-ops,
"L"→"W" gives "Wwuw", "l"→"w" is a no-op, so the festive mutation of
"Love" is "Wwuw". -/
theorem owo_festive :
    (∀ (stmt : Nat → String) (cfg : Config),
      send_quote (some ()) stmt cfg 0 =
        [BotAct.genQuote, BotAct.send ("[UwU] " ++
          pyReplace (pyReplace (pyReplace (pyReplace (pyReplace
            (get_quote stmt cfg.quote_length.1 cfg.quote_length.2).1
            "ove" "wuw") "R" "W") "r" "w") "L" "W") "l" "w" ++ " [UwU]")]) ∧
    pyReplace "Love" "ove" "wuw" = "Lwuw" ∧
    pyReplace "Lwuw" "R" "W" = "Lwuw" ∧
    pyReplace "Lwuw" "r" "w" = "Lwuw" ∧
    pyReplace "Lwuw" "L" "W" = "Wwuw" ∧
    pyReplace "Wwuw" "l" "w" = "Wwuw" ∧
    owo_magic "Love" = "Wwuw" ∧
    send_quote (some ()) (fun _ => "Love") ⟨(1, 2), (3, 4), (5, 6), (0, 10)⟩ 0 =
      [BotAct.genQuote, BotAct.send "[UwU] Wwuw [UwU]"] ∧
    ((List.range 201).filter (fun d => decide (d = 0))).length = 1 :=
  ⟨fun _ _ => rfl, by decide, by decide, by decide, by decide, by decide,
    by decide, by decide, by decide⟩

/-- C8: while no channel is connected (`target` is `None`), `send_quote`
performs no action at all: it neither requests a quote from the generator
nor sends anything, for any draw. -/
theorem send_quote_disconnected (stmt : Nat → String) (cfg : Config)
    (d : Nat) (m : String) :
    send_quote none stmt cfg d = [] ∧
    BotAct.genQuote ∉ send_quote none stmt cfg d ∧
    BotAct.send m ∉ send_quote none stmt cfg d := by
  refine ⟨rfl, ?_, ?_⟩ <;> simp [send_quote]

/-! ## CommandHandler: `Bot.event_message` (bot.py lines 66-88)

```python
async def event_message(self, message: Message) -> None:
    if not message.author or message.author.name.lower() == self.nick.lower():
        return
    self.last_message = int(self.loop.time())
    ...
    if not self.target:
        return
    chatter = self.target.get_chatter(message.author.name)
    if not isinstance(chatter, Chatter) or not message.author.is_mod:
        return
    content = message.content.lower()
    if content == "!snerge" or content.startswith("!snerge "):
        ...
        await self.send_quote()
```

`get_chatter name` models whether `self.target.get_chatter(name)` returns
a `Chatter` instance; Python `str.lower` is `Char.toLower` mapped over the
characters (the inputs here are ASCII). The result records whether
`last_message` was updated and how many posts were triggered. -/

structure Author where
  name : String
  is_mod : Bool

structure Msg where
  author : Option Author
  content : String

def event_message (nick : String) (target : Option (String → Bool))
    (msg : Msg) : Bool × Nat :=
  match msg.author with
  | none => (false, 0)
  | some a =>
    if a.name.data.map Char.toLower = nick.data.map Char.toLower then
      (false, 0)
    else
      match target with
      | none => (true, 0)
      | some get_chatter =>
        if !get_chatter a.name || !a.is_mod then (true, 0)
        else
          if msg.content.data.map Char.toLower = "!snerge".data ∨
              "!snerge ".data.isPrefixOf (msg.content.data.map Char.toLower) then
            (true, 1)
          else (true, 0)

/-- C7: a message authored by a non-moderator never triggers a post,
whatever its content; a message authored by a moderator (author present,
name differing from the bot's own, a channel connected, the chatter
lookup succeeding) whose lowercased content equals "!snerge" or starts
with "!snerge " triggers exactly one post. -/
theorem snerge_command (nick : String) (target : Option (String → Bool))
    (msg : Msg) (a : Author) (gc : String → Bool) :
    (msg.author = some a → a.is_mod = false →
      (event_message nick target msg).2 = 0) ∧
    (msg.author = some a →
      a.name.data.map Char.toLower ≠ nick.data.map Char.toLower →
      target = some gc → gc a.name = true → a.is_mod = true →
      (msg.content.data.map Char.toLower = "!snerge".data ∨
        "!snerge ".data.isPrefixOf (msg.content.data.map Char.toLower)) →
      (event_message nick target msg).2 = 1) := by
  obtain ⟨ma, content⟩ := msg
  constructor
  · intro hauthor hmod
    have h2 : ma = some a := hauthor
    subst h2
    cases target with
    | none =>
      simp only [event_message]
      split
      · rfl
      · rfl
    | some gc2 =>
      simp only [event_message]
      split
      · rfl
      · rw [if_pos (show (!gc2 a.name || !a.is_mod) = true by rw [hmod]; simp)]
  · intro hauthor hname htarget hgc hmod hcontent
    have h2 : ma = some a := hauthor
    subst h2
    have h3 : target = some gc := htarget
    subst h3
    simp only [event_message]
    rw [if_neg hname]
    rw [if_neg (show ¬ ((!gc a.name || !a.is_mod) = true) by
      rw [hgc, hmod]; simp)]
    rw [if_pos hcontent]

/-- Concrete instantiations of `snerge_command`: a moderator's
"!Snerge hi" triggers exactly one post, and a non-moderator's "!snerge"
triggers none. -/
theorem snerge_command_witness :
    (event_message "snergebot" (some (fun _ => true))
      ⟨some ⟨"mod", true⟩, "!Snerge hi"⟩).2 = 1 ∧
    (event_message "snergebot" (some (fun _ => true))
      ⟨some ⟨"pleb", false⟩, "!snerge"⟩).2 = 0 := by
  constructor
  · exact (snerge_command "snergebot" (some (fun _ => true))
      ⟨some ⟨"mod", true⟩, "!Snerge hi"⟩ ⟨"mod", true⟩ (fun _ => true)).2
      rfl (by decide) rfl rfl rfl (by decide)
  · exact (snerge_command "snergebot" (some (fun _ => true))
      ⟨some ⟨"pleb", false⟩, "!snerge"⟩ ⟨"pleb", false⟩ (fun _ => true)).1
      rfl rfl

/-! ## guess_handler (src/snerge/guess_handler.py)

A Python dict is embedded as an insertion-ordered association list with
unique keys: assignment to an existing key updates it in place, a new key
is appended at the end.

```python
def accept_guess(self, name: str, value: int) -> None:
    if self.use_latest_reply:
        self.guesses[name] = value
    else:
        if name not in self.guesses:
            self.guesses[name] = value
```
-/

structure GuessHandler where
  use_latest_reply : Bool
  guesses : List (String × Int)

def dictLookup (g : List (String × Int)) (n : String) : Option Int :=
  match g with
  | [] => none
  | (k, v) :: rest => if k = n then some v else dictLookup rest n

def dictSet (g : List (String × Int)) (n : String) (v : Int) :
    List (String × Int) :=
  match g with
  | [] => [(n, v)]
  | (k, w) :: rest =>
    if k = n then (k, v) :: rest else (k, w) :: dictSet rest n v

def accept_guess (h : GuessHandler) (name : String) (value : Int) :
    GuessHandler :=
  if h.use_latest_reply then
    { h with guesses := dictSet h.guesses name value }
  else
    if (dictLookup h.guesses name).isNone then
      { h with guesses := dictSet h.guesses name value }
    else h

theorem dictLookup_dictSet_same (g : List (String × Int)) (n : String)
    (v : Int) : dictLookup (dictSet g n v) n = some v := by
  induction g with
  | nil => simp [dictSet, dictLookup]
  | cons p rest ih =>
    obtain ⟨k, w⟩ := p
    by_cases hk : k = n
    · simp [dictSet, dictLookup, hk]
    · simp [dictSet, dictLookup, hk, ih]

theorem dictLookup_dictSet_other (g : List (String × Int)) (n m : String)
    (v : Int) (hnm : m ≠ n) :
    dictLookup (dictSet g n v) m = dictLookup g m := by
  have hnm2 : n ≠ m := fun hc => hnm hc.symm
  induction g with
  | nil => simp [dictSet, dictLookup, hnm2]
  | cons p rest ih =>
    obtain ⟨k, w⟩ := p
    by_cases hk : k = n
    · subst hk
      simp [dictSet, dictLookup, hnm2]
    · simp only [dictSet, dictLookup, if_neg hk]
      by_cases hm : k = m
      · simp [dictLookup, hm]
      · simp [dictLookup, hm, ih]

/-- C9: `accept_guess(name, value)` records `value` under `name` when
`use_latest_reply` is set or `name` has no recorded guess yet; when
`use_latest_reply` is unset and a guess for `name` exists, that guess is
kept unchanged (first reply wins); the guesses of every other name are
untouched, and the mode flag is unchanged. -/
theorem accept_guess_spec (h : GuessHandler) (name : String) (value v0 : Int)
    (other : String) :
    ((h.use_latest_reply = true ∨ dictLookup h.guesses name = none) →
      dictLookup (accept_guess h name value).guesses name = some value) ∧
    (h.use_latest_reply = false → dictLookup h.guesses name = some v0 →
      dictLookup (accept_guess h name value).guesses name = some v0) ∧
    (other ≠ name →
      dictLookup (accept_guess h name value).guesses other =
        dictLookup h.guesses other) ∧
    (accept_guess h name value).use_latest_reply = h.use_latest_reply := by
  refine ⟨?_, ?_, ?_, ?_⟩
  · rintro (hmode | hnone)
    · simp [accept_guess, hmode, dictLookup_dictSet_same]
    · by_cases hmode : h.use_latest_reply
      · simp [accept_guess, hmode, dictLookup_dictSet_same]
      · simp [accept_guess, hmode, hnone, dictLookup_dictSet_same]
  · intro hmode hsome
    simp [accept_guess, hmode, hsome]
  · intro hother
    unfold accept_guess
    split
    · exact dictLookup_dictSet_other h.guesses name other value hother
    · split
      · exact dictLookup_dictSet_other h.guesses name other value hother
      · rfl
  · unfold accept_guess
    split
    · rfl
    · split <;> rfl

/-- Concrete instantiations of `accept_guess_spec`: with
`use_latest_reply = false` an existing guess survives a second reply,
another name's guess is untouched, and with `use_latest_reply = true` the
new reply overwrites. -/
theorem accept_guess_spec_witness :
    dictLookup (accept_guess ⟨false, [("alice", 3), ("bob", 7)]⟩
      "alice" 5).guesses "alice" = some 3 ∧
    dictLookup (accept_guess ⟨false, [("alice", 3), ("bob", 7)]⟩
      "alice" 5).guesses "bob" = some 7 ∧
    dictLookup (accept_guess ⟨true, [("alice", 3), ("bob", 7)]⟩
      "alice" 5).guesses "alice" = some 5 := by
  refine ⟨?_, ?_, ?_⟩
  · exact (accept_guess_spec ⟨false, [("alice", 3), ("bob", 7)]⟩
      "alice" 5 3 "bob").2.1 rfl (by decide)
  · exact (accept_guess_spec ⟨false, [("alice", 3), ("bob", 7)]⟩
      "alice" 5 3 "bob").2.2.1 (by decide)
  · exact (accept_guess_spec ⟨true, [("alice", 3), ("bob", 7)]⟩
      "alice" 5 3 "bob").1 (Or.inl rfl)

/-! ```python
def get_score(self, value, closest_without_going_over):
    raw_values = list(self.guesses.values())
    raw_values.sort()
    if closest_without_going_over:
        result_values = raw_values[0]
        last_i = raw_values[0]
        for i in raw_values[1:]:
            if value < i:
                result_values = last_i
                break
            last_i = i
        result_values = set([result_values])
    else:
        diffs = [abs(i - value) for i in raw_values]
        min_diff = min(diffs)
        result_values = [raw_values[i] for i in ... if diffs[i] == min_diff]
        result_values = set(result_values)
    result_names = [n for n in self.guesses if self.guesses[n] in result_values]
    return (result_names, result_values)
```

`cwgoLoop value resultV lastI l` is the `for i in raw_values[1:]` loop:
`resultV` is the current `result_values`, `lastI` the current `last_i`;
a `break` returns `lastI`, falling off the end returns `resultV`.
`raw_values[0]` (and `min([])`) raise `IndexError`/`ValueError` on an
empty dict, modelled by `none`. -/

def cwgoLoop (value resultV lastI : Int) : List Int → Int
  | [] => resultV
  | i :: rest => if value < i then lastI else cwgoLoop value resultV i rest

def get_score (h : GuessHandler) (value : Int)
    (closest_without_going_over : Bool) : Option (List String × List Int) :=
  let raw_values :=
    List.insertionSort (fun a b => a ≤ b) (h.guesses.map Prod.snd)
  match raw_values with
  | [] => none
  | r0 :: rest =>
    let result_values :=
      if closest_without_going_over then
        [cwgoLoop value r0 r0 rest]
      else
        let diffs := raw_values.map (fun i => |i - value|)
        let min_diff := diffs.foldl min |r0 - value|
        (raw_values.filter (fun i => decide (|i - value| = min_diff))).dedup
    let result_names :=
      (h.guesses.filter (fun p => decide (p.2 ∈ result_values))).map Prod.fst
    some (result_names, result_values)

theorem cwgoLoop_no_break (value resultV : Int) (l : List Int) :
    ∀ lastI, (∀ i ∈ l, ¬ value < i) → cwgoLoop value resultV lastI l = resultV := by
  induction l with
  | nil => intro lastI _; rfl
  | cons i rest ih =>
    intro lastI hall
    unfold cwgoLoop
    rw [if_neg (hall i (List.mem_cons_self i rest))]
    exact ih i (fun j hj => hall j (List.mem_cons_of_mem i hj))

/-- C10: with at least one recorded guess, `get_score(value, true)` is
defined, and whenever `value` is at or above every stored guess the
returned value set is the singleton of the minimum stored guess, and
whenever `value` is strictly below every stored guess the returned value
set is again the singleton of the minimum stored guess (which exceeds
`value`). -/
theorem get_score_cwgo_min (h : GuessHandler) (value : Int)
    (hne : h.guesses ≠ []) :
    ∃ m, m ∈ h.guesses.map Prod.snd ∧
      (∀ g ∈ h.guesses.map Prod.snd, m ≤ g) ∧
      ((∀ g ∈ h.guesses.map Prod.snd, g ≤ value) →
        (get_score h value true).map Prod.snd = some [m]) ∧
      ((∀ g ∈ h.guesses.map Prod.snd, value < g) →
        (get_score h value true).map Prod.snd = some [m]) := by
  set vals := h.guesses.map Prod.snd with hvals
  have hvne : vals ≠ [] := by
    intro hc
    exact hne (List.map_eq_nil_iff.mp hc)
  have hperm := List.perm_insertionSort (fun a b => a ≤ b) vals
  obtain ⟨r0, rest, hraw⟩ : ∃ r0 rest,
      List.insertionSort (fun a b => a ≤ b) vals = r0 :: rest := by
    cases hcase : List.insertionSort (fun a b => a ≤ b) vals with
    | nil =>
      rw [hcase] at hperm
      exact absurd (hperm.symm.eq_nil) hvne
    | cons a l => exact ⟨a, l, rfl⟩
  have hsorted := List.sorted_insertionSort (fun a b => a ≤ b) vals
  rw [hraw] at hsorted hperm
  have hmem_raw : ∀ x, x ∈ r0 :: rest → x ∈ vals := fun x hx => hperm.mem_iff.mp hx
  have hm_mem : r0 ∈ vals := hmem_raw r0 (List.mem_cons_self r0 rest)
  have hm_min : ∀ g ∈ vals, r0 ≤ g := by
    intro g hg
    rcases List.mem_cons.mp (hperm.mem_iff.mpr hg) with hg0 | hgr
    · exact le_of_eq hg0.symm
    · exact List.rel_of_sorted_cons hsorted g hgr
  have hgs : ∀ w : Int, cwgoLoop value r0 r0 rest = w →
      (get_score h value true).map Prod.snd = some [w] := by
    intro w hw
    unfold get_score
    rw [← hvals, hraw]
    simp only [if_true]
    rw [hw]
    rfl
  refine ⟨r0, hm_mem, hm_min, ?_, ?_⟩
  · intro hall
    refine hgs r0 ?_
    exact cwgoLoop_no_break value r0 rest r0
      (fun i hi => not_lt_of_le (hall i (hmem_raw i (List.mem_cons_of_mem r0 hi))))
  · intro hall
    refine hgs r0 ?_
    cases rest with
    | nil => rfl
    | cons i rest2 =>
      unfold cwgoLoop
      rw [if_pos (hall i (hmem_raw i (by simp)))]

/-- Concrete instantiations of `get_score_cwgo_min` on guesses
{a: 5, b: 3}: probing at 10 (at or above both guesses) returns the
singleton of the minimum guess 3, and probing at 1 (strictly below both
guesses) also returns the singleton of the minimum guess 3. -/
theorem get_score_cwgo_min_witness :
    (get_score ⟨true, [("a", 5), ("b", 3)]⟩ 10 true).map Prod.snd =
      some [3] ∧
    (get_score ⟨true, [("a", 5), ("b", 3)]⟩ 1 true).map Prod.snd =
      some [3] := by
  constructor
  · obtain ⟨m, hmem, hmin, hA, _⟩ :=
      get_score_cwgo_min ⟨true, [("a", 5), ("b", 3)]⟩ 10 (by decide)
    have h1 : m ≤ 3 := hmin 3 (by decide)
    have h2 : m = 5 ∨ m = 3 := by simpa using hmem
    have hm3 : m = 3 := by omega
    rw [hm3] at hA
    exact hA (by decide)
  · obtain ⟨m, hmem, hmin, _, hB⟩ :=
      get_score_cwgo_min ⟨true, [("a", 5), ("b", 3)]⟩ 1 (by decide)
    have h1 : m ≤ 3 := hmin 3 (by decide)
    have h2 : m = 5 ∨ m = 3 := by simpa using hmem
    have hm3 : m = 3 := by omega
    rw [hm3] at hB
    exact hB (by decide)

end Snerge
